import Mathlib

/-!
Verification of the ngx-clippy core against its specification.

Shallow embedding of three parts of the library:

* `ActionQueue` — the `ActionQueueService` reactive pipeline
  (`projects/ngx-clippy/src/lib/services/action-queue.service.ts`):
  a `Subject`-fed `concatMap` pipeline restarted by a `switchMap` on
  `reset$`.  The pipeline is modelled as a labelled transition system:
  external events (enqueue, a task's intermediate emission, a task's
  completion, clear) drive a state of pending count / executing task /
  buffered tasks, and each step yields the observable outputs
  (subscription of a task's `execute()`, `queueEmpty$` and `cleared$`
  emissions).

* `AnimationSvc` — the `AnimationService` sprite state machine
  (`animation.service.ts`): `getNextFrameIndex`, `selectBranch`,
  and the `setTimeout`-driven `processFrame` loop, with the epoch
  (`animationId`) invalidation mechanism.  `processFrame` is modelled
  as a pure step function parametrised by the captured epoch and the
  random draw; its outputs are the render / sound / state-change
  effects and the optionally scheduled delay.

* `Component` — the slice of `ClippyAgentComponent` that owns the
  idle-loop token (`startIdleLoop` / `cancelIdleLoop` /
  `enqueueAction` / `hide` / `dispose`).
-/

namespace ActionQueue

/-- External events driving the `ActionQueueService` pipeline.  Tasks are
identified by a number; `taskNext t` is an intermediate emission of task
`t`'s `execute()` observable, `taskComplete t` its completion. -/
inductive QEvent where
  | enqueue (t : Nat)
  | taskNext (t : Nat)
  | taskComplete (t : Nat)
  | clear
deriving DecidableEq, Repr

/-- Observable outputs of the pipeline: `subscribe t` is the subscription of
task `t`'s `execute()` (the task starts), `queueEmpty` an emission of
`queueEmpty$`, `cleared` an emission of `cleared$`. -/
inductive QOut where
  | subscribe (t : Nat)
  | queueEmpty
  | cleared
deriving DecidableEq, Repr

/-- State of the `ActionQueueService`: the `pendingActions` counter (a JS
number, hence modelled on `Int`), the task whose `execute()` the inner
`concatMap` is currently subscribed to, and `concatMap`'s buffer of
not-yet-started tasks. -/
structure QState where
  pendingActions : Int
  executing : Option Nat
  buffer : List Nat
deriving DecidableEq, Repr

/-- State of a freshly constructed service: counter `0`, nothing executing,
empty buffer. -/
def initState : QState := ⟨0, none, []⟩

/-- One step of the pipeline, returning the successor state and the outputs
emitted during the step, in emission order.

* `enqueue t` models `enqueue()`: `pendingActions++`, then
  `actionQueue$.next(action)`; `concatMap` subscribes `execute()`
  synchronously when idle, otherwise buffers the task.
* `taskNext` is swallowed by `ignoreElements()` — the queue advances on
  completion only.
* `taskComplete t` has an effect only while the pipeline is subscribed to
  `t` (after `clear()` the old inner pipeline is unsubscribed, so a stale
  completion reaches nothing): `endWith(void 0)` emits, `tap` decrements
  the counter when positive and fires `queueEmpty$` when the counter is
  zero, then `concatMap` subscribes the next buffered task.
* `clear` models `clear()`: `pendingActions = 0`, then `reset$.next()`;
  `switchMap` tears the inner pipeline down (executing task and buffer
  dropped), emits `cleared$` and resubscribes `actionQueue$`. -/
def step (s : QState) : QEvent → QState × List QOut
  | .enqueue t =>
      let p := s.pendingActions + 1
      match s.executing with
      | none => (⟨p, some t, s.buffer⟩, [.subscribe t])
      | some u => (⟨p, some u, s.buffer ++ [t]⟩, [])
  | .taskNext _ => (s, [])
  | .taskComplete t =>
      if s.executing = some t then
        let p := if 0 < s.pendingActions then s.pendingActions - 1 else s.pendingActions
        let emptyOut : List QOut := if p = 0 then [.queueEmpty] else []
        match s.buffer with
        | [] => (⟨p, none, []⟩, emptyOut)
        | h :: rest => (⟨p, some h, rest⟩, emptyOut ++ [.subscribe h])
      else (s, [])
  | .clear => (⟨0, none, []⟩, [.cleared])

/-- Run the pipeline over a list of events, concatenating outputs. -/
def run (s : QState) : List QEvent → QState × List QOut
  | [] => (s, [])
  | e :: es =>
      let x := step s e
      let y := run x.1 es
      (y.1, x.2 ++ y.2)

/-- Tasks whose `execute()` got subscribed, in subscription order. -/
def subscribed (outs : List QOut) : List Nat :=
  outs.filterMap fun o => match o with | .subscribe t => some t | _ => none

/-- Tasks enqueued by a list of events, in enqueue order. -/
def enqueued (es : List QEvent) : List Nat :=
  es.filterMap fun e => match e with | .enqueue t => some t | _ => none

/-- Number of `queueEmpty$` emissions among the outputs. -/
def countEmpty (outs : List QOut) : Nat := outs.count .queueEmpty

/-- Number of `cleared$` emissions among the outputs. -/
def countCleared (outs : List QOut) : Nat := outs.count .cleared

end ActionQueue

namespace ActionQueue

theorem subscribed_append (a b : List QOut) :
    subscribed (a ++ b) = subscribed a ++ subscribed b := by
  simp [subscribed, List.filterMap_append]

theorem run_append (s : QState) (es fs : List QEvent) :
    run s (es ++ fs) =
      ((run (run s es).1 fs).1, (run s es).2 ++ (run (run s es).1 fs).2) := by
  induction es generalizing s with
  | nil => simp [run]
  | cons e es ih => simp [run, ih, List.append_assoc]

theorem run_cons (s : QState) (e : QEvent) (es : List QEvent) :
    run s (e :: es) =
      ((run (step s e).1 es).1, (step s e).2 ++ (run (step s e).1 es).2) := rfl

theorem step_enqueue_idle (s : QState) (t : Nat) (h : s.executing = none) :
    step s (.enqueue t) =
      (⟨s.pendingActions + 1, some t, s.buffer⟩, [.subscribe t]) := by
  simp [step, h]

theorem step_enqueue_busy (s : QState) (u t : Nat) (h : s.executing = some u) :
    step s (.enqueue t) =
      (⟨s.pendingActions + 1, some u, s.buffer ++ [t]⟩, []) := by
  simp [step, h]

theorem step_taskNext (s : QState) (t : Nat) : step s (.taskNext t) = (s, []) := rfl

/-- Decremented-with-floor counter after a completion. -/
def decPending (p : Int) : Int := if 0 < p then p - 1 else p

/-- The `queueEmpty$` emissions of a completion step. -/
def emptyOut (p : Int) : List QOut := if decPending p = 0 then [.queueEmpty] else []

theorem step_complete_nil (s : QState) (t : Nat) (h : s.executing = some t)
    (hb : s.buffer = []) :
    step s (.taskComplete t) = (⟨decPending s.pendingActions, none, []⟩,
      emptyOut s.pendingActions) := by
  simp [step, h, hb, decPending, emptyOut]

theorem step_complete_cons (s : QState) (t h : Nat) (rest : List Nat)
    (hex : s.executing = some t) (hb : s.buffer = h :: rest) :
    step s (.taskComplete t) = (⟨decPending s.pendingActions, some h, rest⟩,
      emptyOut s.pendingActions ++ [.subscribe h]) := by
  simp [step, hex, hb, decPending, emptyOut]

theorem step_complete_stale (s : QState) (t : Nat) (h : s.executing ≠ some t) :
    step s (.taskComplete t) = (s, []) := by
  simp [step, h]

theorem step_clear (s : QState) :
    step s .clear = (⟨0, none, []⟩, [.cleared]) := rfl

theorem subscribed_emptyOut (p : Int) : subscribed (emptyOut p) = [] := by
  unfold emptyOut; split <;> rfl

theorem subscribed_nil : subscribed [] = [] := rfl

theorem subscribed_single (t : Nat) : subscribed [QOut.subscribe t] = [t] := rfl

theorem enqueued_cons_enqueue (t : Nat) (es : List QEvent) :
    enqueued (QEvent.enqueue t :: es) = t :: enqueued es := rfl

theorem enqueued_cons_taskNext (t : Nat) (es : List QEvent) :
    enqueued (QEvent.taskNext t :: es) = enqueued es := rfl

theorem enqueued_cons_taskComplete (t : Nat) (es : List QEvent) :
    enqueued (QEvent.taskComplete t :: es) = enqueued es := rfl

/-- Within a single pipeline generation (no `clear()` among the events) the
subscribed tasks followed by the still-buffered tasks are exactly the
enqueued tasks, in order; moreover when nothing is executing the buffer is
empty. -/
theorem run_noClear_spec (es : List QEvent) :
    ∀ (s : QState), QEvent.clear ∉ es → (s.executing = none → s.buffer = []) →
    subscribed (run s es).2 ++ (run s es).1.buffer = s.buffer ++ enqueued es ∧
    ((run s es).1.executing = none → (run s es).1.buffer = []) := by
  induction es with
  | nil =>
      intro s _ hs
      exact ⟨by simp [run, subscribed, enqueued], hs⟩
  | cons e es ih =>
      intro s hnc hs
      have hnc' : QEvent.clear ∉ es := fun h => hnc (List.mem_cons_of_mem _ h)
      match e with
      | .clear => exact absurd (List.mem_cons_self _ _) hnc
      | .taskNext t =>
          rw [run_cons, step_taskNext]
          simpa [enqueued_cons_taskNext] using ih s hnc' hs
      | .enqueue t =>
          cases hex : s.executing with
          | none =>
              have hb : s.buffer = [] := hs hex
              rw [run_cons, step_enqueue_idle s t hex]
              have h2 := ih ⟨s.pendingActions + 1, some t, s.buffer⟩ hnc' (by simp)
              refine ⟨?_, h2.2⟩
              rw [subscribed_append, subscribed_single, enqueued_cons_enqueue, hb]
              simpa [hb] using h2.1
          | some u =>
              rw [run_cons, step_enqueue_busy s u t hex]
              have h2 := ih ⟨s.pendingActions + 1, some u, s.buffer ++ [t]⟩ hnc' (by simp)
              refine ⟨?_, h2.2⟩
              rw [subscribed_append, subscribed_nil, enqueued_cons_enqueue]
              simpa using h2.1
      | .taskComplete t =>
          by_cases hex : s.executing = some t
          · cases hb : s.buffer with
            | nil =>
                rw [run_cons, step_complete_nil s t hex hb]
                have h2 := ih ⟨decPending s.pendingActions, none, []⟩ hnc' (by simp)
                refine ⟨?_, h2.2⟩
                rw [subscribed_append, subscribed_emptyOut, enqueued_cons_taskComplete]
                simpa using h2.1
            | cons h rest =>
                rw [run_cons, step_complete_cons s t h rest hex hb]
                have h2 := ih ⟨decPending s.pendingActions, some h, rest⟩ hnc' (by simp)
                refine ⟨?_, h2.2⟩
                rw [subscribed_append, subscribed_append, subscribed_emptyOut,
                  subscribed_single, enqueued_cons_taskComplete]
                simpa [List.append_assoc] using h2.1
          · rw [run_cons, step_complete_stale s t hex]
            simpa [enqueued_cons_taskComplete] using ih s hnc' hs

end ActionQueue

namespace ActionQueue

/-- A subscription emitted by a single step starts either the task just
enqueued while the pipeline was idle, or the buffer head upon completion of
the executing task. -/
theorem subscribe_step_cases (s : QState) (e : QEvent) (t : Nat)
    (hmem : QOut.subscribe t ∈ (step s e).2) :
    (e = .enqueue t ∧ s.executing = none) ∨
    (∃ u rest, e = .taskComplete u ∧ s.executing = some u ∧ s.buffer = t :: rest) := by
  match e with
  | .clear => simp [step_clear] at hmem
  | .taskNext u => simp [step_taskNext] at hmem
  | .enqueue u =>
      cases hex : s.executing with
      | none =>
          rw [step_enqueue_idle s u hex] at hmem
          simp at hmem
          exact Or.inl ⟨by rw [hmem], rfl⟩
      | some v => rw [step_enqueue_busy s v u hex] at hmem; simp at hmem
  | .taskComplete u =>
      by_cases hex : s.executing = some u
      · cases hb : s.buffer with
        | nil =>
            rw [step_complete_nil s u hex hb] at hmem
            have : subscribed (emptyOut s.pendingActions) = [] := subscribed_emptyOut _
            unfold emptyOut at hmem
            split at hmem <;> simp at hmem
        | cons h rest =>
            rw [step_complete_cons s u h rest hex hb] at hmem
            have ht : t = h := by
              unfold emptyOut at hmem
              split at hmem <;> simpa using hmem
            exact Or.inr ⟨u, rest, rfl, hex, by rw [ht]⟩
      · rw [step_complete_stale s u hex] at hmem; simp at hmem

/-- Every task subscribed along a run was either already buffered at the
start or enqueued during the run. -/
theorem subscribe_run_origin (es : List QEvent) :
    ∀ (s : QState) (t : Nat), QOut.subscribe t ∈ (run s es).2 →
      t ∈ s.buffer ∨ t ∈ enqueued es := by
  induction es with
  | nil => intro s t h; simp [run] at h
  | cons e es ih =>
      intro s t h
      rw [run_cons] at h
      rcases List.mem_append.mp h with hstep | hrest
      · rcases subscribe_step_cases s e t hstep with ⟨he, _⟩ | ⟨u, rest, he, _, hb⟩
        · subst he; simp [enqueued_cons_enqueue]
        · subst he
          rw [enqueued_cons_taskComplete]
          exact Or.inl (by rw [hb]; exact List.mem_cons_self _ _)
      · have := ih (step s e).1 t hrest
        rcases this with hbuf | henq
        · -- the successor's buffer only holds tasks from the old buffer or
          -- the task enqueued by this event
          match e with
          | .clear => rw [step_clear] at hbuf; simp at hbuf
          | .taskNext u => rw [step_taskNext] at hbuf; exact Or.inl hbuf
          | .enqueue u =>
              cases hex : s.executing with
              | none =>
                  rw [step_enqueue_idle s u hex] at hbuf
                  exact Or.inl hbuf
              | some v =>
                  rw [step_enqueue_busy s v u hex] at hbuf
                  simp at hbuf
                  rcases hbuf with hbuf | hbuf
                  · exact Or.inl hbuf
                  · subst hbuf; simp [enqueued_cons_enqueue]
          | .taskComplete u =>
              by_cases hex : s.executing = some u
              · cases hb : s.buffer with
                | nil => rw [step_complete_nil s u hex hb] at hbuf; simp at hbuf
                | cons h rest =>
                    rw [step_complete_cons s u h rest hex hb] at hbuf
                    exact Or.inl (List.mem_cons_of_mem _ hbuf)
              · rw [step_complete_stale s u hex] at hbuf; exact Or.inl hbuf
        · right
          match e with
          | .clear => exact henq
          | .taskNext u => exact henq
          | .taskComplete u => exact henq
          | .enqueue u => exact List.mem_cons_of_mem _ henq

/-- Each step emits `cleared$` exactly when the event is `clear`. -/
theorem countCleared_step (s : QState) (e : QEvent) :
    countCleared (step s e).2 = (if e = .clear then 1 else 0) := by
  match e with
  | .clear => rfl
  | .taskNext u => rfl
  | .enqueue u =>
      cases hex : s.executing with
      | none => rw [step_enqueue_idle s u hex]; rfl
      | some v => rw [step_enqueue_busy s v u hex]; rfl
  | .taskComplete u =>
      by_cases hex : s.executing = some u
      · cases hb : s.buffer with
        | nil =>
            rw [step_complete_nil s u hex hb]
            simp only [countCleared]
            unfold emptyOut; split <;> rfl
        | cons h rest =>
            rw [step_complete_cons s u h rest hex hb]
            simp only [countCleared]
            unfold emptyOut; split <;> rfl
      · rw [step_complete_stale s u hex]; rfl

/-- `cleared$` fires exactly once per `clear()` over any run. -/
theorem countCleared_run (es : List QEvent) :
    ∀ s : QState, countCleared (run s es).2 = es.count .clear := by
  induction es with
  | nil => intro s; rfl
  | cons e es ih =>
      intro s
      rw [run_cons]
      have : countCleared ((step s e).2 ++ (run (step s e).1 es).2) =
          countCleared (step s e).2 + countCleared (run (step s e).1 es).2 := by
        simp [countCleared, List.count_append]
      rw [this, countCleared_step, ih, List.count_cons]
      by_cases he : e = QEvent.clear
      · simp [he, Nat.add_comm]
      · simp [he]

/-- The pending counter never becomes negative: every step preserves
nonnegativity. -/
theorem pending_nonneg_step (s : QState) (e : QEvent) (h : 0 ≤ s.pendingActions) :
    0 ≤ (step s e).1.pendingActions := by
  match e with
  | .clear => simp [step_clear]
  | .taskNext u => simpa [step_taskNext] using h
  | .enqueue u =>
      cases hex : s.executing with
      | none =>
          rw [step_enqueue_idle s u hex]
          show 0 ≤ s.pendingActions + 1
          omega
      | some v =>
          rw [step_enqueue_busy s v u hex]
          show 0 ≤ s.pendingActions + 1
          omega
  | .taskComplete u =>
      by_cases hex : s.executing = some u
      · cases hb : s.buffer with
        | nil =>
            rw [step_complete_nil s u hex hb]
            simp only [decPending]
            split <;> omega
        | cons hd rest =>
            rw [step_complete_cons s u hd rest hex hb]
            simp only [decPending]
            split <;> omega
      · rw [step_complete_stale s u hex]; exact h

theorem pending_nonneg_run (es : List QEvent) :
    ∀ s : QState, 0 ≤ s.pendingActions → 0 ≤ (run s es).1.pendingActions := by
  induction es with
  | nil => intro s h; exact h
  | cons e es ih =>
      intro s h
      rw [run_cons]
      exact ih _ (pending_nonneg_step s e h)

end ActionQueue

namespace ActionQueue

/-- Enqueues while a task is executing only grow the counter and the buffer,
starting nothing. -/
theorem run_enqueueAll (ts : List Nat) :
    ∀ (p : Int) (u : Nat) (b : List Nat),
      run ⟨p, some u, b⟩ (ts.map .enqueue) =
        (⟨p + ts.length, some u, b ++ ts⟩, []) := by
  induction ts with
  | nil => intro p u b; simp [run]
  | cons t ts ih =>
      intro p u b
      rw [List.map_cons, run_cons, step_enqueue_busy _ u t rfl, ih (p + 1) u (b ++ [t])]
      simp [QState.mk.injEq, List.append_assoc]
      omega

/-- Completing the executing task and then each buffered task in FIFO order
subscribes the buffered tasks one by one and fires `queueEmpty$` exactly at
the last completion, when the counter matches the number of completions. -/
theorem run_completeAll (ts : List Nat) :
    ∀ t : Nat,
      run ⟨(ts.length : Int) + 1, some t, ts⟩ ((t :: ts).map .taskComplete) =
        (⟨0, none, []⟩, ts.map QOut.subscribe ++ [QOut.queueEmpty]) := by
  induction ts with
  | nil =>
      intro t
      rw [List.map_cons, List.map_nil, run_cons, step_complete_nil _ t rfl rfl]
      simp [run, decPending, emptyOut]
  | cons h rest ih =>
      intro t
      have hdec : decPending (((h :: rest).length : Int) + 1) = (rest.length : Int) + 1 := by
        unfold decPending
        rw [if_pos (by positivity)]
        have hlen : ((h :: rest).length : Int) = (rest.length : Int) + 1 := by
          simp [List.length_cons]
        rw [hlen]
        ring
      have hemp : emptyOut (((h :: rest).length : Int) + 1) = [] := by
        unfold emptyOut
        rw [hdec, if_neg (by positivity)]
      rw [List.map_cons, run_cons, step_complete_cons _ t h rest rfl rfl, hdec, hemp,
        ih h]
      simp

/-- `queueEmpty$` is never emitted by subscribing tasks. -/
theorem countEmpty_subscribes (ts : List Nat) :
    countEmpty (ts.map QOut.subscribe) = 0 := by
  induction ts with
  | nil => rfl
  | cons t ts ih => simpa [countEmpty, List.count_cons] using ih

end ActionQueue

namespace ActionQueue

/-- `queueEmpty$` can only be emitted by a completion of the executing
task. -/
theorem queueEmpty_step_cases (s : QState) (e : QEvent)
    (h : QOut.queueEmpty ∈ (step s e).2) :
    ∃ t, e = .taskComplete t ∧ s.executing = some t := by
  match e with
  | .clear => simp [step_clear] at h
  | .taskNext u => simp [step_taskNext] at h
  | .enqueue u =>
      cases hex : s.executing with
      | none => rw [step_enqueue_idle s u hex] at h; simp at h
      | some v => rw [step_enqueue_busy s v u hex] at h; simp at h
  | .taskComplete u =>
      by_cases hex : s.executing = some u
      · exact ⟨u, rfl, hex⟩
      · rw [step_complete_stale s u hex] at h; simp at h

theorem countEmpty_emptyOut (p : Int) :
    countEmpty (emptyOut p) = if decPending p = 0 then 1 else 0 := by
  unfold emptyOut; split <;> simp_all [countEmpty]

end ActionQueue

namespace ActionQueue

/-- C1: tasks enqueued without an intervening `clear()` are executed
strictly in enqueue order.  Formally: (1) over any event trace without a
`clear`, the sequence of tasks whose `execute()` gets subscribed is a
prefix of the sequence of enqueued tasks; (2) enqueueing while no task
executes starts the task synchronously within `enqueue` (the subscription
is an output of the very same step); (3) an intermediate `next` emission
of a task changes no state — in particular it neither starts the next task
nor touches the pending count; (4) a subscription only ever happens for a
task enqueued while the pipeline is idle or for the buffer head at the
completion of the currently executing task, so task n+1 starts only once
task n has completed. -/
theorem C1_fifo_order :
    (∀ es : List QEvent, QEvent.clear ∉ es →
        ∃ rest, subscribed (run initState es).2 ++ rest = enqueued es) ∧
    (∀ (s : QState) (t : Nat), s.executing = none →
        step s (.enqueue t) =
          (⟨s.pendingActions + 1, some t, s.buffer⟩, [.subscribe t])) ∧
    (∀ (s : QState) (t : Nat), step s (.taskNext t) = (s, [])) ∧
    (∀ (s : QState) (e : QEvent) (t : Nat), QOut.subscribe t ∈ (step s e).2 →
        (e = .enqueue t ∧ s.executing = none) ∨
        ∃ u rest, e = .taskComplete u ∧ s.executing = some u ∧
          s.buffer = t :: rest) := by
  refine ⟨fun es hnc => ?_, step_enqueue_idle, step_taskNext, subscribe_step_cases⟩
  have h := run_noClear_spec es initState hnc (fun _ => rfl)
  exact ⟨(run initState es).1.buffer, by simpa [initState, enqueued] using h.1⟩

theorem C1_fifo_order_witness :
    (∃ rest, subscribed (run initState
          [QEvent.enqueue 1, QEvent.enqueue 2, QEvent.taskComplete 1]).2 ++ rest =
        enqueued [QEvent.enqueue 1, QEvent.enqueue 2, QEvent.taskComplete 1]) ∧
    step initState (.enqueue 5) =
      (⟨initState.pendingActions + 1, some 5, initState.buffer⟩, [.subscribe 5]) ∧
    step ⟨2, some 1, [2]⟩ (.taskNext 1) = (⟨2, some 1, [2]⟩, []) ∧
    ((QEvent.taskComplete 1 = QEvent.enqueue 2 ∧
        (⟨2, some 1, [2]⟩ : QState).executing = none) ∨
      ∃ u rest, QEvent.taskComplete 1 = QEvent.taskComplete u ∧
        (⟨2, some 1, [2]⟩ : QState).executing = some u ∧
        (⟨2, some 1, [2]⟩ : QState).buffer = 2 :: rest) :=
  ⟨C1_fifo_order.1 _ (by decide),
   C1_fifo_order.2.1 initState 5 rfl,
   C1_fifo_order.2.2.1 ⟨2, some 1, [2]⟩ 1,
   C1_fifo_order.2.2.2 ⟨2, some 1, [2]⟩ (.taskComplete 1) 2 (by decide)⟩

/-- C2: `clear()` (1) resets the pending count to zero, drops the executing
task and the whole buffer, and emits exactly one `cleared$` event in that
step; (2) a completion of a task the pipeline is no longer subscribed to
(in particular the pre-clear in-flight task) changes nothing — no pending
decrement, no `queueEmpty$`; (2b) likewise any of its later intermediate
emissions; (3) over any run, `cleared$` fires exactly as many times as
`clear` occurs; (4) starting from the post-clear state, only tasks enqueued
afterwards are ever subscribed — a buffered-but-not-started task from
before the clear never executes; (5) an enqueue right after `clear()`
starts its task immediately. -/
theorem C2_clear_resets :
    (∀ s : QState, step s .clear = (⟨0, none, []⟩, [.cleared])) ∧
    (∀ (s : QState) (t : Nat), s.executing ≠ some t →
        step s (.taskComplete t) = (s, [])) ∧
    (∀ (s : QState) (t : Nat), step s (.taskNext t) = (s, [])) ∧
    (∀ (s : QState) (es : List QEvent),
        countCleared (run s es).2 = es.count .clear) ∧
    (∀ (s : QState) (t : Nat) (es : List QEvent),
        QOut.subscribe t ∈ (run (step s .clear).1 es).2 → t ∈ enqueued es) ∧
    (∀ (s : QState) (t : Nat),
        step (step s .clear).1 (.enqueue t) = (⟨1, some t, []⟩, [.subscribe t])) := by
  refine ⟨step_clear, step_complete_stale, step_taskNext,
    fun s es => countCleared_run es s, fun s t es h => ?_, fun s t => ?_⟩
  · have := subscribe_run_origin es (step s .clear).1 t h
    rw [step_clear] at this
    simpa using this
  · rw [step_clear]
    rw [step_enqueue_idle ⟨0, none, []⟩ t rfl]
    norm_num

theorem C2_clear_resets_witness :
    step ⟨5, some 3, [4, 7]⟩ .clear = (⟨0, none, []⟩, [.cleared]) ∧
    step ⟨0, none, []⟩ (.taskComplete 3) = (⟨0, none, []⟩, []) ∧
    step ⟨0, none, []⟩ (.taskNext 3) = (⟨0, none, []⟩, []) ∧
    countCleared (run ⟨0, none, []⟩ [QEvent.clear, QEvent.enqueue 1, QEvent.clear]).2 =
      [QEvent.clear, QEvent.enqueue 1, QEvent.clear].count .clear ∧
    (4 : Nat) ∈ enqueued [QEvent.enqueue 4, QEvent.taskComplete 4] ∧
    step (step ⟨2, some 9, [8]⟩ .clear).1 (.enqueue 6) =
      (⟨1, some 6, []⟩, [.subscribe 6]) :=
  ⟨C2_clear_resets.1 ⟨5, some 3, [4, 7]⟩,
   C2_clear_resets.2.1 ⟨0, none, []⟩ 3 (by decide),
   C2_clear_resets.2.2.1 ⟨0, none, []⟩ 3,
   C2_clear_resets.2.2.2.1 ⟨0, none, []⟩ [QEvent.clear, QEvent.enqueue 1, QEvent.clear],
   C2_clear_resets.2.2.2.2.1 ⟨2, some 9, [8]⟩ 4 [QEvent.enqueue 4, QEvent.taskComplete 4]
     (by decide),
   C2_clear_resets.2.2.2.2.2 ⟨2, some 9, [8]⟩ 6⟩

/-- C7: the pending count (1) stays nonnegative over every run from the
fresh service state; (2) a completion of the executing task sets it to the
guarded decrement (decrement only when positive) and emits `queueEmpty$`
exactly when the guarded decrement is zero; (3) `queueEmpty$` is only ever
emitted by a completion of the executing task; (4) a completion arriving
with the count already at zero leaves it at zero and still fires the empty
event; (5) enqueuing n ≥ 1 tasks and completing them in order fires
`queueEmpty$` exactly once. -/
theorem C7_pending_floor :
    (∀ es : List QEvent, 0 ≤ (run initState es).1.pendingActions) ∧
    (∀ (s : QState) (t : Nat), s.executing = some t →
        (step s (.taskComplete t)).1.pendingActions = decPending s.pendingActions ∧
        countEmpty (step s (.taskComplete t)).2 =
          if decPending s.pendingActions = 0 then 1 else 0) ∧
    (∀ (s : QState) (e : QEvent), QOut.queueEmpty ∈ (step s e).2 →
        ∃ t, e = .taskComplete t ∧ s.executing = some t) ∧
    (∀ (s : QState) (t : Nat), s.executing = some t → s.pendingActions = 0 →
        (step s (.taskComplete t)).1.pendingActions = 0 ∧
        QOut.queueEmpty ∈ (step s (.taskComplete t)).2) ∧
    (∀ (t : Nat) (ts : List Nat),
        countEmpty (run initState
          ((t :: ts).map .enqueue ++ (t :: ts).map .taskComplete)).2 = 1) := by
  refine ⟨fun es => pending_nonneg_run es initState le_rfl,
    fun s t hex => ?_, queueEmpty_step_cases, fun s t hex hp => ?_, fun t ts => ?_⟩
  · cases hb : s.buffer with
    | nil =>
        rw [step_complete_nil s t hex hb]
        exact ⟨rfl, countEmpty_emptyOut s.pendingActions⟩
    | cons h rest =>
        rw [step_complete_cons s t h rest hex hb]
        refine ⟨rfl, ?_⟩
        have : countEmpty (emptyOut s.pendingActions ++ [QOut.subscribe h]) =
            countEmpty (emptyOut s.pendingActions) := by
          simp [countEmpty, List.count_append]
        rw [this, countEmpty_emptyOut]
  · have hdec : decPending s.pendingActions = 0 := by simp [decPending, hp]
    cases hb : s.buffer with
    | nil =>
        rw [step_complete_nil s t hex hb]
        exact ⟨hdec, by simp [emptyOut, hdec]⟩
    | cons h rest =>
        rw [step_complete_cons s t h rest hex hb]
        exact ⟨hdec, by simp [emptyOut, hdec]⟩
  · rw [run_append]
    have h1 : run initState ((t :: ts).map .enqueue) =
        (⟨(ts.length : Int) + 1, some t, ts⟩, [QOut.subscribe t]) := by
      rw [List.map_cons, run_cons, step_enqueue_idle initState t rfl,
        run_enqueueAll ts _ t _]
      simp [initState, QState.mk.injEq]
      omega
    rw [h1, run_completeAll ts t]
    have h2 := countEmpty_subscribes ts
    simp [countEmpty, List.count_append, List.count_cons] at h2 ⊢
    exact h2

theorem C7_pending_floor_witness :
    0 ≤ (run initState [QEvent.enqueue 1, QEvent.taskComplete 1,
        QEvent.taskComplete 1]).1.pendingActions ∧
    ((step ⟨2, some 4, []⟩ (.taskComplete 4)).1.pendingActions = decPending 2 ∧
      countEmpty (step ⟨2, some 4, []⟩ (.taskComplete 4)).2 =
        if decPending 2 = 0 then 1 else 0) ∧
    (∃ t, QEvent.taskComplete 4 = QEvent.taskComplete t ∧
      (⟨1, some 4, []⟩ : QState).executing = some t) ∧
    ((step ⟨0, some 4, []⟩ (.taskComplete 4)).1.pendingActions = 0 ∧
      QOut.queueEmpty ∈ (step ⟨0, some 4, []⟩ (.taskComplete 4)).2) ∧
    countEmpty (run initState
      ([3, 8].map QEvent.enqueue ++ [3, 8].map QEvent.taskComplete)).2 = 1 :=
  ⟨C7_pending_floor.1 [QEvent.enqueue 1, QEvent.taskComplete 1, QEvent.taskComplete 1],
   C7_pending_floor.2.1 ⟨2, some 4, []⟩ 4 rfl,
   C7_pending_floor.2.2.1 ⟨1, some 4, []⟩ (.taskComplete 4) (by decide),
   C7_pending_floor.2.2.2.1 ⟨0, some 4, []⟩ 4 rfl rfl,
   C7_pending_floor.2.2.2.2 3 [8]⟩

end ActionQueue

namespace AnimationSvc

/-- One weighted branch entry of a frame's `branching` table.  Weights and
the random draw live in `ℚ` (the source compares them as JS numbers). -/
structure Branch where
  frameIndex : Nat
  weight : ℚ
deriving DecidableEq, Repr

/-- `branching` data of a frame. -/
structure BranchingData where
  branches : List Branch
deriving DecidableEq, Repr

/-- One sprite frame (`AnimationFrame` of `agent-config.interface.ts`):
duration in time units, layer offsets, optional sound key, optional
`exitBranch` target and optional `branching` table. -/
structure AnimationFrame where
  duration : Nat
  images : List (Int × Int)
  sound : Option String
  exitBranch : Option Nat
  branching : Option BranchingData
deriving DecidableEq, Repr

/-- An animation: its ordered frames and the `useExitBranching` flag (a JS
optional bool whose absence is falsy, hence a plain `Bool`). -/
structure AnimationData where
  frames : List AnimationFrame
  useExitBranching : Bool
deriving DecidableEq, Repr

/-- The agent's static data, restricted to the fields the state machine
reads: the animation map and the declared sound keys. -/
structure AgentData where
  animations : List (String × AnimationData)
  sounds : List String
deriving DecidableEq, Repr

def lookupAnim (d : AgentData) (name : String) : Option AnimationData :=
  (d.animations.find? fun p => p.1 == name).map Prod.snd

/-- `hasAnimation`: pure lookup over static data. -/
def hasAnimation (d : AgentData) (name : String) : Bool :=
  (lookupAnim d name).isSome

/-- `getAnimations`: the animation names. -/
def getAnimations (d : AgentData) : List String := d.animations.map Prod.fst

/-- Terminal / wait states emitted by the loop (`WAITING = 1`, `EXITED = 0`
in `animation-state.interface.ts`). -/
inductive AnimationState where
  | WAITING
  | EXITED
deriving DecidableEq, Repr

/-- Mutable state of the `AnimationService`: the epoch counter
`animationId`, the current frame index, the current frame object (possibly
`undefined`), the current animation name and data, the `shouldExit` flag,
and the keys of the preloaded sounds (`this.sounds`). -/
structure AnimState where
  animationId : Nat
  currentFrameIndex : Nat
  currentFrame : Option AnimationFrame
  currentAnimationName : Option String
  currentAnimationData : Option AnimationData
  shouldExit : Bool
  sounds : List String
deriving DecidableEq, Repr

/-- The loop of `selectBranch`: walk the branch list; take the first branch
whose weight the remaining draw does not exceed, subtracting each skipped
branch's weight from the draw; fall through to the fallback index. -/
def selectBranchGo : List Branch → ℚ → Nat → Nat
  | [], _, fallback => fallback
  | b :: rest, random, fallback =>
      if random ≤ b.weight then b.frameIndex
      else selectBranchGo rest (random - b.weight) fallback

/-- `selectBranch(branches)` with the random draw made explicit: the
fallback on fall-through is `currentFrameIndex + 1`. -/
def selectBranch (currentFrameIndex : Nat) (branches : List Branch) (random : ℚ) : Nat :=
  selectBranchGo branches random (currentFrameIndex + 1)

/-- Modelled from the spec's wording of weighted selection (for comparison
with `selectBranch`): walk the list accumulating weight; the first branch
whose cumulative weight meets or exceeds the draw wins; otherwise fall
back. -/
def cumSelect : List Branch → ℚ → ℚ → Nat → Nat
  | [], _, _, fallback => fallback
  | b :: rest, acc, r, fallback =>
      if r ≤ acc + b.weight then b.frameIndex
      else cumSelect rest (acc + b.weight) r fallback

/-- Total declared weight of a branch list. -/
def totalWeight (branches : List Branch) : ℚ :=
  (branches.map Branch.weight).sum

/-- `getNextFrameIndex` with the random draw made explicit: `0` when no
animation data or no current frame is set; the current frame's
`exitBranch` when exit was requested and one is defined; otherwise the
weighted branch selection when the frame has a `branching` table;
otherwise the next sequential index. -/
def getNextFrameIndex (s : AnimState) (r : ℚ) : Nat :=
  match s.currentAnimationData, s.currentFrame with
  | some _, some f =>
      match s.shouldExit, f.exitBranch with
      | true, some e => e
      | _, _ =>
          match f.branching with
          | some br => selectBranch s.currentFrameIndex br.branches r
          | none => s.currentFrameIndex + 1
  | _, _ => 0

/-- `isAtLastFrame`: `currentFrameIndex >= frames.length - 1` (with the JS
`-1` for an empty list subsumed by truncated subtraction). -/
def isAtLastFrame (d : AnimationData) (idx : Nat) : Bool :=
  d.frames.length - 1 ≤ idx

/-- `this.currentFrame?.duration || 100`: the effective delay of the frame,
with a missing frame or falsy (zero) duration defaulting to 100. -/
def durOr100 : Option AnimationFrame → Nat
  | some f => if f.duration = 0 then 100 else f.duration
  | none => 100

/-- `this.currentFrame?.images || []`. -/
def imagesOf : Option AnimationFrame → List (Int × Int)
  | some f => f.images
  | none => []

/-- Observable per-tick effects of the loop: the render effect (layer `i`
shows the `i`-th offset pair, layers beyond the list are hidden), a sound
playback, a state-change emission (delivered to both the session observer
and `stateChange$`), and completion of the session observer. -/
inductive AnimEffect where
  | render (images : List (Int × Int))
  | sound (name : String)
  | emitState (animationName : Option String) (state : AnimationState)
  | complete
deriving DecidableEq, Repr

/-- `playFrameSound()`: a sound effect fires when the frame declares a
sound key that was preloaded. -/
def frameSoundEffects (loaded : List String) : Option AnimationFrame → List AnimEffect
  | some f =>
      match f.sound with
      | some n => if n ∈ loaded then [.sound n] else []
      | none => []
  | none => []

/-- One tick of the `setTimeout` loop (`processFrame` inside
`animationLoop`), parametrised by the epoch `id` captured when the session
started and by the random draw `r` used by a possible branch selection.
Returns the successor service state, the effects emitted during the tick
(in order), and the delay of the rescheduled tick (`none` when the loop
does not reschedule).

The `currentAnimationData = none` case is unreachable in the service: the
loop only runs for a session started by `playAnimation` (which sets the
data), and `reinitialize()` bumps the epoch before clearing the data, so a
stale tick bails out at the epoch check first. -/
def processFrame (s : AnimState) (id : Nat) (r : ℚ) :
    AnimState × List AnimEffect × Option Nat :=
  if s.animationId ≠ id then
    (s, [.complete], none)
  else
    match s.currentAnimationData with
    | none => (s, [], none)
    | some d =>
        let nextIndex := getNextFrameIndex s r
        let frameChanged := s.currentFrame.isNone || s.currentFrameIndex != nextIndex
        let atLastWithExit := isAtLastFrame d nextIndex && d.useExitBranching
        let newFrame := if atLastWithExit then s.currentFrame else d.frames[nextIndex]?
        let s' := { s with currentFrameIndex := nextIndex, currentFrame := newFrame }
        let isLast := isAtLastFrame d nextIndex
        let emitEffs : List AnimEffect :=
          if frameChanged && isLast then
            if d.useExitBranching && !s.shouldExit then
              [.emitState s.currentAnimationName .WAITING]
            else
              [.emitState s.currentAnimationName .EXITED, .complete]
          else []
        let sched : Option Nat :=
          if !isLast || (d.useExitBranching && !s.shouldExit) then
            some (durOr100 newFrame)
          else none
        (s', .render (imagesOf newFrame) :: frameSoundEffects s.sounds newFrame ++ emitEffs,
          sched)

/-- `playAnimation(agentData, name)`: `EMPTY` (no session, state untouched)
for an unknown name; otherwise reset `shouldExit`, set the session fields,
and start the loop, which increments `animationId` and captures it.  The
second component is the captured epoch of the new session (`none` for the
`EMPTY` case). -/
def playAnimation (s : AnimState) (d : AgentData) (name : String) :
    AnimState × Option Nat :=
  match lookupAnim d name with
  | none => (s, none)
  | some a =>
      ({ s with
          shouldExit := false
          currentAnimationName := some name
          currentAnimationData := some a
          currentFrameIndex := 0
          currentFrame := none
          animationId := s.animationId + 1 },
        some (s.animationId + 1))

/-- `exitAnimation()`: request exit at the next opportunity. -/
def exitAnimation (s : AnimState) : AnimState := { s with shouldExit := true }

/-- Model of `reinitialize()` restricted to the animation state: increment
`animationId` to invalidate in-flight loops, set `shouldExit`, clear the
session fields, and replace the preloaded sounds. -/
def reinit (s : AnimState) (newSounds : List String) : AnimState :=
  { animationId := s.animationId + 1, currentFrameIndex := 0, currentFrame := none,
    currentAnimationName := none, currentAnimationData := none, shouldExit := true,
    sounds := newSounds }

end AnimationSvc

namespace AnimationSvc

/-- The source's subtract-as-you-go loop agrees with the spec's
accumulate-and-compare description of weighted selection. -/
theorem selectBranchGo_eq_cumSelect (branches : List Branch) :
    ∀ (acc r : ℚ) (fb : Nat),
      selectBranchGo branches (r - acc) fb = cumSelect branches acc r fb := by
  induction branches with
  | nil => intro acc r fb; rfl
  | cons b rest ih =>
      intro acc r fb
      simp only [selectBranchGo, cumSelect]
      by_cases h : r ≤ acc + b.weight
      · rw [if_pos (by linarith), if_pos h]
      · rw [if_neg (by intro hc; exact h (by linarith)), if_neg h]
        have harg : r - acc - b.weight = r - (acc + b.weight) := by ring
        rw [harg]
        exact ih (acc + b.weight) r fb

theorem selectBranch_eq_cumSelect (idx : Nat) (branches : List Branch) (r : ℚ) :
    selectBranch idx branches r = cumSelect branches 0 r (idx + 1) := by
  have h := selectBranchGo_eq_cumSelect branches 0 r (idx + 1)
  simpa [selectBranch] using h

theorem totalWeight_nonneg (branches : List Branch)
    (h : ∀ b ∈ branches, 0 ≤ b.weight) : 0 ≤ totalWeight branches := by
  apply List.sum_nonneg
  intro x hx
  rcases List.mem_map.mp hx with ⟨b, hb, rfl⟩
  exact h b hb

/-- With nonnegative weights, a draw exceeding the total declared weight
falls through the whole loop to the fallback index. -/
theorem selectBranchGo_fallback (branches : List Branch) :
    ∀ (r : ℚ) (fb : Nat), (∀ b ∈ branches, 0 ≤ b.weight) →
      totalWeight branches < r → selectBranchGo branches r fb = fb := by
  induction branches with
  | nil => intro r fb _ _; rfl
  | cons b rest ih =>
      intro r fb hw ht
      have hw0 : 0 ≤ b.weight := hw b (List.mem_cons_self _ _)
      have hrest : ∀ x ∈ rest, 0 ≤ x.weight := fun x hx => hw x (List.mem_cons_of_mem _ hx)
      have hsum : totalWeight (b :: rest) = b.weight + totalWeight rest := by
        simp [totalWeight]
      have hrs : 0 ≤ totalWeight rest := totalWeight_nonneg rest hrest
      rw [selectBranchGo, if_neg (by rw [hsum] at ht; intro hc; linarith)]
      exact ih (r - b.weight) fb hrest (by rw [hsum] at ht; linarith)

/-- The loop's result is the fallback or the target of one of the
branches. -/
theorem selectBranchGo_mem (branches : List Branch) :
    ∀ (r : ℚ) (fb : Nat), selectBranchGo branches r fb = fb ∨
      ∃ b ∈ branches, selectBranchGo branches r fb = b.frameIndex := by
  induction branches with
  | nil => intro r fb; exact Or.inl rfl
  | cons b rest ih =>
      intro r fb
      rw [selectBranchGo]
      by_cases h : r ≤ b.weight
      · rw [if_pos h]
        exact Or.inr ⟨b, List.mem_cons_self _ _, rfl⟩
      · rw [if_neg h]
        rcases ih (r - b.weight) fb with hfb | ⟨c, hc, hcv⟩
        · exact Or.inl hfb
        · exact Or.inr ⟨c, List.mem_cons_of_mem _ hc, hcv⟩

/-- Reduction of `getNextFrameIndex` when no exit route is taken (exit not
requested, or no `exitBranch` on the current frame). -/
theorem getNextFrameIndex_noExitRoute (s : AnimState) (d : AnimationData)
    (f : AnimationFrame) (r : ℚ) (hd : s.currentAnimationData = some d)
    (hf : s.currentFrame = some f)
    (hor : s.shouldExit = false ∨ f.exitBranch = none) :
    getNextFrameIndex s r =
      match f.branching with
      | some br => selectBranch s.currentFrameIndex br.branches r
      | none => s.currentFrameIndex + 1 := by
  rcases hor with hx | hb
  · cases heb : f.exitBranch <;> simp [getNextFrameIndex, hd, hf, hx, heb]
  · cases hx : s.shouldExit <;> simp [getNextFrameIndex, hd, hf, hx, hb]

end AnimationSvc

namespace AnimationSvc

/-- C3: next-frame priority at a frame boundary.  (1) With exit requested
and an `exitBranch` on the current frame, the next index is that
`exitBranch`.  (2) Otherwise, with a `branching` table, the next index is
the weighted selection — equal to the spec's cumulative-weight description:
the first branch whose cumulative weight meets or exceeds the draw.
(3) For branches `[{4, 60}, {5, 40}]` a draw of 10 yields index 4 and a
draw of 75 yields index 5.  (4) A draw exceeding the total declared
(nonnegative) weight falls back to the sequential index + 1.  (5) With no
`branching` table the next index is index + 1. -/
theorem C3_next_frame_selection :
    (∀ (s : AnimState) (d : AnimationData) (f : AnimationFrame) (e : Nat) (r : ℚ),
        s.currentAnimationData = some d → s.currentFrame = some f →
        s.shouldExit = true → f.exitBranch = some e →
        getNextFrameIndex s r = e) ∧
    (∀ (s : AnimState) (d : AnimationData) (f : AnimationFrame) (br : BranchingData)
        (r : ℚ),
        s.currentAnimationData = some d → s.currentFrame = some f →
        (s.shouldExit = false ∨ f.exitBranch = none) → f.branching = some br →
        getNextFrameIndex s r = cumSelect br.branches 0 r (s.currentFrameIndex + 1)) ∧
    (selectBranch 0 [⟨4, 60⟩, ⟨5, 40⟩] 10 = 4 ∧
      selectBranch 0 [⟨4, 60⟩, ⟨5, 40⟩] 75 = 5) ∧
    (∀ (s : AnimState) (d : AnimationData) (f : AnimationFrame) (br : BranchingData)
        (r : ℚ),
        s.currentAnimationData = some d → s.currentFrame = some f →
        (s.shouldExit = false ∨ f.exitBranch = none) → f.branching = some br →
        (∀ b ∈ br.branches, 0 ≤ b.weight) → totalWeight br.branches < r →
        getNextFrameIndex s r = s.currentFrameIndex + 1) ∧
    (∀ (s : AnimState) (d : AnimationData) (f : AnimationFrame) (r : ℚ),
        s.currentAnimationData = some d → s.currentFrame = some f →
        (s.shouldExit = false ∨ f.exitBranch = none) → f.branching = none →
        getNextFrameIndex s r = s.currentFrameIndex + 1) := by
  refine ⟨?_, ?_, ⟨by norm_num [selectBranch, selectBranchGo],
      by norm_num [selectBranch, selectBranchGo]⟩, ?_, ?_⟩
  · intro s d f e r hd hf hx hb
    simp [getNextFrameIndex, hd, hf, hx, hb]
  · intro s d f br r hd hf hor hbr
    rw [getNextFrameIndex_noExitRoute s d f r hd hf hor]
    simp only [hbr]
    exact selectBranch_eq_cumSelect s.currentFrameIndex br.branches r
  · intro s d f br r hd hf hor hbr hw ht
    rw [getNextFrameIndex_noExitRoute s d f r hd hf hor]
    simp only [hbr]
    exact selectBranchGo_fallback br.branches r _ hw ht
  · intro s d f r hd hf hor hbr
    rw [getNextFrameIndex_noExitRoute s d f r hd hf hor]
    simp [hbr]

theorem C3_next_frame_selection_witness :
    (getNextFrameIndex
        ⟨1, 2, some ⟨10, [], none, some 7, none⟩, some "A",
          some ⟨[⟨10, [], none, none, none⟩], false⟩, true, []⟩ 0 = 7) ∧
    (getNextFrameIndex
        ⟨1, 2, some ⟨10, [], none, none,
            some ⟨[⟨4, 60⟩, ⟨5, 40⟩]⟩⟩, some "A",
          some ⟨[⟨10, [], none, none, none⟩], false⟩, false, []⟩ 10 =
      cumSelect [⟨4, 60⟩, ⟨5, 40⟩] 0 10 3) ∧
    (getNextFrameIndex
        ⟨1, 2, some ⟨10, [], none, none,
            some ⟨[⟨4, 60⟩, ⟨5, 40⟩]⟩⟩, some "A",
          some ⟨[⟨10, [], none, none, none⟩], false⟩, false, []⟩ 150 = 3) ∧
    (getNextFrameIndex
        ⟨1, 2, some ⟨10, [], none, none, none⟩, some "A",
          some ⟨[⟨10, [], none, none, none⟩], false⟩, false, []⟩ 0 = 3) :=
  ⟨C3_next_frame_selection.1 _ ⟨[⟨10, [], none, none, none⟩], false⟩
      ⟨10, [], none, some 7, none⟩ 7 0 rfl rfl rfl rfl,
   C3_next_frame_selection.2.1 _ ⟨[⟨10, [], none, none, none⟩], false⟩
      ⟨10, [], none, none, some ⟨[⟨4, 60⟩, ⟨5, 40⟩]⟩⟩ ⟨[⟨4, 60⟩, ⟨5, 40⟩]⟩ 10
      rfl rfl (Or.inl rfl) rfl,
   C3_next_frame_selection.2.2.2.1 _ ⟨[⟨10, [], none, none, none⟩], false⟩
      ⟨10, [], none, none, some ⟨[⟨4, 60⟩, ⟨5, 40⟩]⟩⟩ ⟨[⟨4, 60⟩, ⟨5, 40⟩]⟩ 150
      rfl rfl (Or.inl rfl) rfl (by decide) (by norm_num [totalWeight]),
   C3_next_frame_selection.2.2.2.2 _ ⟨[⟨10, [], none, none, none⟩], false⟩
      ⟨10, [], none, none, none⟩ 0 rfl rfl (Or.inl rfl) rfl⟩

end AnimationSvc

namespace AnimationSvc

theorem processFrame_stale (s : AnimState) (id : Nat) (r : ℚ)
    (h : s.animationId ≠ id) :
    processFrame s id r = (s, [.complete], none) := by
  simp [processFrame, h]

/-- C5: epoch cancellation.  (1) A tick whose captured epoch is no longer
current leaves the state untouched, emits no render / sound / state-change
effect, completes the observer cleanly and schedules nothing.
(2) `playAnimation` on a known name increments the epoch and the new
session captures the incremented value.  (3) `reinitialize` increments the
epoch.  (4)/(5) Hence any continuation that captured an epoch from before
a `reinitialize` or a new `playAnimation` terminates silently with no
effect. -/
theorem C5_epoch_cancellation :
    (∀ (s : AnimState) (id : Nat) (r : ℚ), s.animationId ≠ id →
        processFrame s id r = (s, [.complete], none)) ∧
    (∀ (s : AnimState) (d : AgentData) (name : String) (a : AnimationData),
        lookupAnim d name = some a →
        (playAnimation s d name).1.animationId = s.animationId + 1 ∧
        (playAnimation s d name).2 = some (s.animationId + 1)) ∧
    (∀ (s : AnimState) (ss : List String),
        (reinit s ss).animationId = s.animationId + 1) ∧
    (∀ (s : AnimState) (ss : List String) (id : Nat) (r : ℚ),
        id ≤ s.animationId →
        processFrame (reinit s ss) id r = (reinit s ss, [.complete], none)) ∧
    (∀ (s : AnimState) (d : AgentData) (name : String) (a : AnimationData)
        (id : Nat) (r : ℚ),
        lookupAnim d name = some a → id ≤ s.animationId →
        processFrame (playAnimation s d name).1 id r =
          ((playAnimation s d name).1, [.complete], none)) := by
  refine ⟨processFrame_stale, ?_, fun s ss => rfl, ?_, ?_⟩
  · intro s d name a h
    simp [playAnimation, h]
  · intro s ss id r hle
    exact processFrame_stale _ id r (by show s.animationId + 1 ≠ id; omega)
  · intro s d name a id r h hle
    refine processFrame_stale _ id r ?_
    have : (playAnimation s d name).1.animationId = s.animationId + 1 := by
      simp [playAnimation, h]
    rw [this]
    omega

theorem C5_epoch_cancellation_witness :
    processFrame ⟨5, 0, none, none, none, false, []⟩ 4 0 =
      (⟨5, 0, none, none, none, false, []⟩, [.complete], none) ∧
    ((playAnimation ⟨5, 0, none, none, none, false, []⟩
        ⟨[("A", ⟨[⟨10, [], none, none, none⟩], false⟩)], []⟩ "A").1.animationId = 6 ∧
      (playAnimation ⟨5, 0, none, none, none, false, []⟩
        ⟨[("A", ⟨[⟨10, [], none, none, none⟩], false⟩)], []⟩ "A").2 = some 6) ∧
    (reinit ⟨5, 0, none, none, none, false, []⟩ []).animationId = 6 ∧
    processFrame (reinit ⟨5, 0, none, none, none, false, []⟩ []) 5 0 =
      (reinit ⟨5, 0, none, none, none, false, []⟩ [], [.complete], none) ∧
    processFrame (playAnimation ⟨5, 0, none, none, none, false, []⟩
        ⟨[("A", ⟨[⟨10, [], none, none, none⟩], false⟩)], []⟩ "A").1 5 0 =
      ((playAnimation ⟨5, 0, none, none, none, false, []⟩
        ⟨[("A", ⟨[⟨10, [], none, none, none⟩], false⟩)], []⟩ "A").1, [.complete], none) :=
  ⟨C5_epoch_cancellation.1 _ 4 0 (by decide),
   C5_epoch_cancellation.2.1 _ _ "A" ⟨[⟨10, [], none, none, none⟩], false⟩ (by decide),
   C5_epoch_cancellation.2.2.1 _ [],
   C5_epoch_cancellation.2.2.2.1 _ [] 5 0 (by decide),
   C5_epoch_cancellation.2.2.2.2 _ _ "A" ⟨[⟨10, [], none, none, none⟩], false⟩ 5 0
     (by decide) (by decide)⟩

end AnimationSvc

namespace AnimationSvc

/-- C9: whenever a tick schedules a successor, the scheduled delay is the
effective duration of exactly the frame the tick just set as current and
rendered (`this.currentFrame` after the update, whose images the render
effect uses); the effective duration replaces a missing frame or a zero
(falsy) duration by the default 100. -/
theorem C9_delay_from_rendered_frame :
    (∀ (s : AnimState) (d : AnimationData) (id : Nat) (r : ℚ) (del : Nat),
        s.animationId = id → s.currentAnimationData = some d →
        (processFrame s id r).2.2 = some del →
        del = durOr100 (processFrame s id r).1.currentFrame ∧
        AnimEffect.render (imagesOf (processFrame s id r).1.currentFrame) ∈
          (processFrame s id r).2.1) ∧
    (∀ f : AnimationFrame, f.duration = 0 → durOr100 (some f) = 100) ∧
    durOr100 none = 100 ∧
    (∀ f : AnimationFrame, f.duration ≠ 0 → durOr100 (some f) = f.duration) := by
  refine ⟨?_, fun f h => by simp [durOr100, h], rfl, fun f h => by simp [durOr100, h]⟩
  intro s d id r del hid hd hsched
  have hne : ¬ s.animationId ≠ id := by simp [hid]
  simp only [processFrame, if_neg hne, hd] at hsched ⊢
  refine ⟨?_, List.mem_cons_self _ _⟩
  split at hsched
  · exact (Option.some.inj hsched).symm
  · exact absurd hsched (by simp)

theorem C9_delay_from_rendered_frame_witness :
    ((10 : Nat) = durOr100 (processFrame
        ⟨1, 0, none, some "A",
          some ⟨[⟨10, [], none, none, none⟩, ⟨0, [], none, none, none⟩], false⟩,
          false, []⟩ 1 0).1.currentFrame ∧
      AnimEffect.render (imagesOf (processFrame
        ⟨1, 0, none, some "A",
          some ⟨[⟨10, [], none, none, none⟩, ⟨0, [], none, none, none⟩], false⟩,
          false, []⟩ 1 0).1.currentFrame) ∈
        (processFrame
        ⟨1, 0, none, some "A",
          some ⟨[⟨10, [], none, none, none⟩, ⟨0, [], none, none, none⟩], false⟩,
          false, []⟩ 1 0).2.1) ∧
    durOr100 (some ⟨0, [], none, none, none⟩) = 100 :=
  ⟨C9_delay_from_rendered_frame.1 _
      ⟨[⟨10, [], none, none, none⟩, ⟨0, [], none, none, none⟩], false⟩ 1 0 10
      rfl rfl (by decide),
   C9_delay_from_rendered_frame.2.1 ⟨0, [], none, none, none⟩ rfl⟩

/-- C10: `playAnimation` on a known name starts the fresh session with the
exit flag cleared, the frame index reset to 0 and no current frame — in
particular an `exitAnimation()` from an earlier session does not carry
over — and while the exit flag is down the next-frame computation ignores
`exitBranch` (only the session's own `exitAnimation()` can route through
it). -/
theorem C10_play_resets_exit :
    (∀ (s : AnimState) (d : AgentData) (name : String) (a : AnimationData),
        lookupAnim d name = some a →
        (playAnimation s d name).1.shouldExit = false ∧
        (playAnimation s d name).1.currentFrameIndex = 0 ∧
        (playAnimation s d name).1.currentFrame = none ∧
        (playAnimation s d name).1.currentAnimationData = some a) ∧
    (∀ (s : AnimState) (d : AgentData) (name : String) (a : AnimationData),
        lookupAnim d name = some a →
        (playAnimation (exitAnimation s) d name).1.shouldExit = false) ∧
    (∀ (s : AnimState) (d : AnimationData) (f : AnimationFrame) (r : ℚ),
        s.currentAnimationData = some d → s.currentFrame = some f →
        s.shouldExit = false →
        getNextFrameIndex s r =
          match f.branching with
          | some br => selectBranch s.currentFrameIndex br.branches r
          | none => s.currentFrameIndex + 1) := by
  refine ⟨?_, ?_, ?_⟩
  · intro s d name a h
    simp [playAnimation, h]
  · intro s d name a h
    simp [playAnimation, h]
  · intro s d f r hd hf hx
    exact getNextFrameIndex_noExitRoute s d f r hd hf (Or.inl hx)

theorem C10_play_resets_exit_witness :
    ((playAnimation ⟨5, 3, none, none, none, true, []⟩
        ⟨[("A", ⟨[⟨10, [], none, none, none⟩], false⟩)], []⟩ "A").1.shouldExit = false ∧
      (playAnimation ⟨5, 3, none, none, none, true, []⟩
        ⟨[("A", ⟨[⟨10, [], none, none, none⟩], false⟩)], []⟩ "A").1.currentFrameIndex = 0 ∧
      (playAnimation ⟨5, 3, none, none, none, true, []⟩
        ⟨[("A", ⟨[⟨10, [], none, none, none⟩], false⟩)], []⟩ "A").1.currentFrame = none ∧
      (playAnimation ⟨5, 3, none, none, none, true, []⟩
        ⟨[("A", ⟨[⟨10, [], none, none, none⟩], false⟩)], []⟩ "A").1.currentAnimationData =
        some ⟨[⟨10, [], none, none, none⟩], false⟩) ∧
    (playAnimation (exitAnimation ⟨5, 3, none, none, none, false, []⟩)
        ⟨[("A", ⟨[⟨10, [], none, none, none⟩], false⟩)], []⟩ "A").1.shouldExit = false ∧
    getNextFrameIndex
        ⟨1, 2, some ⟨10, [], none, some 0, none⟩, some "A",
          some ⟨[⟨10, [], none, none, none⟩], false⟩, false, []⟩ 0 = 3 :=
  ⟨C10_play_resets_exit.1 _ _ "A" ⟨[⟨10, [], none, none, none⟩], false⟩ (by decide),
   C10_play_resets_exit.2.1 _ _ "A" ⟨[⟨10, [], none, none, none⟩], false⟩ (by decide),
   C10_play_resets_exit.2.2 _ ⟨[⟨10, [], none, none, none⟩], false⟩
     ⟨10, [], none, some 0, none⟩ 0 rfl rfl rfl⟩

end AnimationSvc

namespace AnimationSvc

theorem processFrame_idx (s : AnimState) (d : AnimationData) (id : Nat) (r : ℚ)
    (hid : s.animationId = id) (hd : s.currentAnimationData = some d) :
    (processFrame s id r).1.currentFrameIndex = getNextFrameIndex s r := by
  have hne : ¬ s.animationId ≠ id := by simp [hid]
  simp [processFrame, if_neg hne, hd]

theorem getNextFrameIndex_exit (s : AnimState) (d : AnimationData)
    (f : AnimationFrame) (e : Nat) (r : ℚ) (hd : s.currentAnimationData = some d)
    (hf : s.currentFrame = some f) (hx : s.shouldExit = true)
    (hb : f.exitBranch = some e) : getNextFrameIndex s r = e := by
  simp [getNextFrameIndex, hd, hf, hx, hb]

/-- Tick arriving at the final index of an exit-branching animation with
exit not requested: the previous frame object is retained and re-rendered,
`WAITING` is emitted (frame changed), no completion, and the loop
reschedules after the retained frame's effective duration. -/
theorem processFrame_waiting_eq (s : AnimState) (d : AnimationData) (id : Nat)
    (r : ℚ) (hid : s.animationId = id) (hd : s.currentAnimationData = some d)
    (hUEB : d.useExitBranching = true) (hx : s.shouldExit = false)
    (hLast : isAtLastFrame d (getNextFrameIndex s r) = true)
    (hCh : (s.currentFrame.isNone || s.currentFrameIndex != getNextFrameIndex s r) = true) :
    processFrame s id r =
      ({ s with currentFrameIndex := getNextFrameIndex s r },
        .render (imagesOf s.currentFrame) ::
          frameSoundEffects s.sounds s.currentFrame ++
          [.emitState s.currentAnimationName .WAITING],
        some (durOr100 s.currentFrame)) := by
  have hne : ¬ s.animationId ≠ id := by simp [hid]
  simp [processFrame, if_neg hne, hd, hUEB, hx, hLast, hCh]

/-- Tick arriving (with a frame change) at the final index of an animation
that is not waiting — `useExitBranching` false, or exit requested:
`EXITED` is emitted, the observer completes, and nothing is rescheduled. -/
theorem processFrame_exited (s : AnimState) (d : AnimationData) (id : Nat)
    (r : ℚ) (hid : s.animationId = id) (hd : s.currentAnimationData = some d)
    (hterm : (d.useExitBranching && !s.shouldExit) = false)
    (hLast : isAtLastFrame d (getNextFrameIndex s r) = true)
    (hCh : (s.currentFrame.isNone || s.currentFrameIndex != getNextFrameIndex s r) = true) :
    AnimEffect.emitState s.currentAnimationName .EXITED ∈ (processFrame s id r).2.1 ∧
    AnimEffect.complete ∈ (processFrame s id r).2.1 ∧
    (processFrame s id r).2.2 = none := by
  have hne : ¬ s.animationId ≠ id := by simp [hid]
  simp [processFrame, if_neg hne, hd, hterm, hLast, hCh]

end AnimationSvc

namespace AnimationSvc

/-- C4 (amended): (a) a tick reaching the final frame index of a
`useExitBranching` animation with exit not requested retains the previous
frame object, emits `WAITING`, completes nothing, and reschedules — the
session stays alive on the timer cadence; (b) a tick reaching the final
index with a frame change otherwise (`useExitBranching` false, or exit
requested) emits `EXITED`, completes the observer, and reschedules
nothing; (c) after a `WAITING` emission, `exitAnimation()` followed by one
more tick emits `EXITED` and terminates provided the retained current
frame defines neither `exitBranch` nor `branching`, so that the sequential
advance passes the final index (a retained frame with an `exitBranch`
makes the tick jump there instead — the claim does not hold unamended). -/
theorem C4_wait_exit_semantics :
    (∀ (s : AnimState) (d : AnimationData) (id : Nat) (r : ℚ),
        s.animationId = id → s.currentAnimationData = some d →
        d.useExitBranching = true → s.shouldExit = false →
        isAtLastFrame d (getNextFrameIndex s r) = true →
        (s.currentFrame.isNone || s.currentFrameIndex != getNextFrameIndex s r) = true →
        processFrame s id r =
          ({ s with currentFrameIndex := getNextFrameIndex s r },
            .render (imagesOf s.currentFrame) ::
              frameSoundEffects s.sounds s.currentFrame ++
              [.emitState s.currentAnimationName .WAITING],
            some (durOr100 s.currentFrame))) ∧
    (∀ (s : AnimState) (d : AnimationData) (id : Nat) (r : ℚ),
        s.animationId = id → s.currentAnimationData = some d →
        (d.useExitBranching && !s.shouldExit) = false →
        isAtLastFrame d (getNextFrameIndex s r) = true →
        (s.currentFrame.isNone || s.currentFrameIndex != getNextFrameIndex s r) = true →
        AnimEffect.emitState s.currentAnimationName .EXITED ∈ (processFrame s id r).2.1 ∧
        AnimEffect.complete ∈ (processFrame s id r).2.1 ∧
        (processFrame s id r).2.2 = none) ∧
    (∀ (s : AnimState) (d : AnimationData) (f : AnimationFrame) (id : Nat) (r : ℚ),
        s.animationId = id → s.currentAnimationData = some d →
        d.useExitBranching = true → s.currentFrame = some f →
        f.exitBranch = none → f.branching = none → s.shouldExit = true →
        isAtLastFrame d s.currentFrameIndex = true →
        AnimEffect.emitState s.currentAnimationName .EXITED ∈ (processFrame s id r).2.1 ∧
        AnimEffect.complete ∈ (processFrame s id r).2.1 ∧
        (processFrame s id r).2.2 = none) := by
  refine ⟨processFrame_waiting_eq, processFrame_exited, ?_⟩
  intro s d f id r hid hd hUEB hf heb hbr hx hLast
  have hnext : getNextFrameIndex s r = s.currentFrameIndex + 1 := by
    rw [getNextFrameIndex_noExitRoute s d f r hd hf (Or.inr heb)]
    simp [hbr]
  have hLast' : isAtLastFrame d (getNextFrameIndex s r) = true := by
    rw [hnext]
    simp only [isAtLastFrame, decide_eq_true_eq] at hLast ⊢
    omega
  have hCh : (s.currentFrame.isNone || s.currentFrameIndex != getNextFrameIndex s r) = true := by
    rw [hnext]
    simp
  exact processFrame_exited s d id r hid hd (by simp [hUEB, hx]) hLast' hCh

/-- C4 as literally stated fails on the code: in this session the frame
retained in the wait state carries `exitBranch` 0, so after the `WAITING`
emission and `exitAnimation()` the next tick emits no `EXITED`, completes
nothing, reschedules the loop and resumes at frame 0. -/
theorem C4_counterexample :
    (let d : AnimationData :=
      ⟨[⟨1, [], none, some 0, none⟩, ⟨1, [], none, none, none⟩], true⟩
     let s0 := (playAnimation ⟨0, 0, none, none, none, false, []⟩
        ⟨[("W", d)], []⟩ "W").1
     let t1 := processFrame s0 1 0
     let t2 := processFrame t1.1 1 0
     let t3 := processFrame (exitAnimation t2.1) 1 0
     AnimEffect.emitState (some "W") .WAITING ∈ t2.2.1 ∧
     AnimEffect.emitState (some "W") .EXITED ∉ t3.2.1 ∧
     AnimEffect.complete ∉ t3.2.1 ∧
     t3.2.2 = some 1 ∧
     t3.1.currentFrameIndex = 0) := by decide

theorem C4_wait_exit_semantics_witness :
    processFrame
        ⟨1, 0, some ⟨1, [], none, some 0, none⟩, some "W",
          some ⟨[⟨1, [], none, some 0, none⟩, ⟨1, [], none, none, none⟩], true⟩,
          false, []⟩ 1 0 =
      (⟨1, 1, some ⟨1, [], none, some 0, none⟩, some "W",
          some ⟨[⟨1, [], none, some 0, none⟩, ⟨1, [], none, none, none⟩], true⟩,
          false, []⟩,
        [.render [], .emitState (some "W") .WAITING], some 1) ∧
    (AnimEffect.emitState (some "E") .EXITED ∈
        (processFrame
          ⟨1, 0, some ⟨1, [], none, none, none⟩, some "E",
            some ⟨[⟨1, [], none, none, none⟩, ⟨1, [], none, none, none⟩], false⟩,
            false, []⟩ 1 0).2.1 ∧
      AnimEffect.complete ∈
        (processFrame
          ⟨1, 0, some ⟨1, [], none, none, none⟩, some "E",
            some ⟨[⟨1, [], none, none, none⟩, ⟨1, [], none, none, none⟩], false⟩,
            false, []⟩ 1 0).2.1 ∧
      (processFrame
          ⟨1, 0, some ⟨1, [], none, none, none⟩, some "E",
            some ⟨[⟨1, [], none, none, none⟩, ⟨1, [], none, none, none⟩], false⟩,
            false, []⟩ 1 0).2.2 = none) ∧
    (AnimEffect.emitState (some "X") .EXITED ∈
        (processFrame
          ⟨1, 1, some ⟨1, [], none, none, none⟩, some "X",
            some ⟨[⟨1, [], none, none, none⟩, ⟨1, [], none, none, none⟩], true⟩,
            true, []⟩ 1 0).2.1 ∧
      AnimEffect.complete ∈
        (processFrame
          ⟨1, 1, some ⟨1, [], none, none, none⟩, some "X",
            some ⟨[⟨1, [], none, none, none⟩, ⟨1, [], none, none, none⟩], true⟩,
            true, []⟩ 1 0).2.1 ∧
      (processFrame
          ⟨1, 1, some ⟨1, [], none, none, none⟩, some "X",
            some ⟨[⟨1, [], none, none, none⟩, ⟨1, [], none, none, none⟩], true⟩,
            true, []⟩ 1 0).2.2 = none) :=
  ⟨C4_wait_exit_semantics.1 _
      ⟨[⟨1, [], none, some 0, none⟩, ⟨1, [], none, none, none⟩], true⟩ 1 0
      rfl rfl rfl rfl (by decide) (by decide),
   C4_wait_exit_semantics.2.1 _
      ⟨[⟨1, [], none, none, none⟩, ⟨1, [], none, none, none⟩], false⟩ 1 0
      rfl rfl (by decide) (by decide) (by decide),
   C4_wait_exit_semantics.2.2 _
      ⟨[⟨1, [], none, none, none⟩, ⟨1, [], none, none, none⟩], true⟩
      ⟨1, [], none, none, none⟩ 1 0 rfl rfl rfl rfl rfl rfl rfl (by decide)⟩

end AnimationSvc

namespace AnimationSvc

theorem getNextFrameIndex_branch (s : AnimState) (d : AnimationData)
    (f : AnimationFrame) (br : BranchingData) (r : ℚ)
    (hd : s.currentAnimationData = some d) (hf : s.currentFrame = some f)
    (hor : s.shouldExit = false ∨ f.exitBranch = none)
    (hbr : f.branching = some br) :
    getNextFrameIndex s r = selectBranch s.currentFrameIndex br.branches r := by
  rw [getNextFrameIndex_noExitRoute s d f r hd hf hor]
  simp [hbr]

theorem getNextFrameIndex_seq (s : AnimState) (d : AnimationData)
    (f : AnimationFrame) (r : ℚ)
    (hd : s.currentAnimationData = some d) (hf : s.currentFrame = some f)
    (hor : s.shouldExit = false ∨ f.exitBranch = none)
    (hbr : f.branching = none) :
    getNextFrameIndex s r = s.currentFrameIndex + 1 := by
  rw [getNextFrameIndex_noExitRoute s d f r hd hf hor]
  simp [hbr]

theorem getNextFrameIndex_noFrame (s : AnimState) (r : ℚ)
    (hf : s.currentFrame = none) : getNextFrameIndex s r = 0 := by
  cases hd : s.currentAnimationData <;> simp [getNextFrameIndex, hd, hf]

theorem processFrame_frame (s : AnimState) (d : AnimationData) (id : Nat) (r : ℚ)
    (hid : s.animationId = id) (hd : s.currentAnimationData = some d) :
    (processFrame s id r).1.currentFrame =
      (if isAtLastFrame d (getNextFrameIndex s r) && d.useExitBranching then
        s.currentFrame
      else d.frames[getNextFrameIndex s r]?) := by
  have hne : ¬ s.animationId ≠ id := by simp [hid]
  simp [processFrame, if_neg hne, hd]

/-- C8 (amended): (a) the first tick of a session (no current frame yet)
sets the index to 0, valid for any nonempty frame list; (b) a tick from a
position strictly before the final index whose current frame has all
`exitBranch` and branch targets within bounds lands within bounds
(sequential, exit-branch and weighted-branch advances all preserve
validity, the weighted fallback included); (c) the exit-branching wait
state is the exception the unamended claim misses: its tick runs at the
final index and, when the retained frame has no `exitBranch` or
`branching`, advances the index sequentially to one past the final index —
`frames.length` itself when waiting at `frames.length - 1` — without
indexing the frame list (the retained frame object is kept). -/
theorem C8_index_validity :
    (∀ (s : AnimState) (d : AnimationData) (id : Nat) (r : ℚ),
        s.animationId = id → s.currentAnimationData = some d →
        s.currentFrame = none → 0 < d.frames.length →
        (processFrame s id r).1.currentFrameIndex = 0 ∧
        (processFrame s id r).1.currentFrameIndex < d.frames.length) ∧
    (∀ (s : AnimState) (d : AnimationData) (f : AnimationFrame) (id : Nat) (r : ℚ),
        s.animationId = id → s.currentAnimationData = some d →
        s.currentFrame = some f →
        s.currentFrameIndex + 1 < d.frames.length →
        (∀ e, f.exitBranch = some e → e < d.frames.length) →
        (∀ br, f.branching = some br →
          ∀ b ∈ br.branches, b.frameIndex < d.frames.length) →
        (processFrame s id r).1.currentFrameIndex < d.frames.length) ∧
    (∀ (s : AnimState) (d : AnimationData) (f : AnimationFrame) (id : Nat) (r : ℚ),
        s.animationId = id → s.currentAnimationData = some d →
        d.useExitBranching = true → s.currentFrame = some f →
        f.exitBranch = none → f.branching = none →
        isAtLastFrame d s.currentFrameIndex = true →
        (processFrame s id r).1.currentFrameIndex = s.currentFrameIndex + 1 ∧
        (processFrame s id r).1.currentFrame = s.currentFrame) := by
  refine ⟨?_, ?_, ?_⟩
  · intro s d id r hid hd hf hlen
    rw [processFrame_idx s d id r hid hd, getNextFrameIndex_noFrame s r hf]
    exact ⟨rfl, hlen⟩
  · intro s d f id r hid hd hf hpos hexit hbranch
    rw [processFrame_idx s d id r hid hd]
    cases hx : s.shouldExit with
    | true =>
        cases heb : f.exitBranch with
        | some e =>
            rw [getNextFrameIndex_exit s d f e r hd hf hx heb]
            exact hexit e heb
        | none =>
            cases hbrv : f.branching with
            | none =>
                rw [getNextFrameIndex_seq s d f r hd hf (Or.inr heb) hbrv]
                exact hpos
            | some br =>
                rw [getNextFrameIndex_branch s d f br r hd hf (Or.inr heb) hbrv]
                rcases selectBranchGo_mem br.branches r (s.currentFrameIndex + 1) with
                  hfb | ⟨b, hb, hv⟩
                · rw [selectBranch, hfb]; exact hpos
                · rw [selectBranch, hv]; exact hbranch br hbrv b hb
    | false =>
        cases hbrv : f.branching with
        | none =>
            rw [getNextFrameIndex_seq s d f r hd hf (Or.inl hx) hbrv]
            exact hpos
        | some br =>
            rw [getNextFrameIndex_branch s d f br r hd hf (Or.inl hx) hbrv]
            rcases selectBranchGo_mem br.branches r (s.currentFrameIndex + 1) with
              hfb | ⟨b, hb, hv⟩
            · rw [selectBranch, hfb]; exact hpos
            · rw [selectBranch, hv]; exact hbranch br hbrv b hb
  · intro s d f id r hid hd hUEB hf heb hbr hLast
    have hnext : getNextFrameIndex s r = s.currentFrameIndex + 1 :=
      getNextFrameIndex_seq s d f r hd hf (Or.inr heb) hbr
    have hLast' : isAtLastFrame d (getNextFrameIndex s r) = true := by
      rw [hnext]
      simp only [isAtLastFrame, decide_eq_true_eq] at hLast ⊢
      omega
    refine ⟨?_, ?_⟩
    · rw [processFrame_idx s d id r hid hd, hnext]
    · rw [processFrame_frame s d id r hid hd, if_pos (by rw [hLast', hUEB]; rfl)]

/-- C8 as stated fails on the code: this exit-branching session waits at
its final index 1 (of a 2-frame list), and the exit tick advances the
index sequentially to 2 = `frames.length`, outside the valid range. -/
theorem C8_counterexample :
    (let d : AnimationData :=
      ⟨[⟨1, [], none, none, none⟩, ⟨1, [], none, none, none⟩], true⟩
     let s0 := (playAnimation ⟨0, 0, none, none, none, false, []⟩
        ⟨[("W", d)], []⟩ "W").1
     let t1 := processFrame s0 1 0
     let t2 := processFrame t1.1 1 0
     let t3 := processFrame (exitAnimation t2.1) 1 0
     t2.1.currentFrameIndex = 1 ∧
     AnimEffect.emitState (some "W") .WAITING ∈ t2.2.1 ∧
     t3.1.currentFrameIndex = 2 ∧
     d.frames.length = 2 ∧
     ¬ t3.1.currentFrameIndex < d.frames.length) := by decide

theorem C8_index_validity_witness :
    ((processFrame ⟨1, 0, none, some "A",
        some ⟨[⟨1, [], none, none, none⟩, ⟨1, [], none, none, none⟩], false⟩,
        false, []⟩ 1 0).1.currentFrameIndex = 0 ∧
      (processFrame ⟨1, 0, none, some "A",
        some ⟨[⟨1, [], none, none, none⟩, ⟨1, [], none, none, none⟩], false⟩,
        false, []⟩ 1 0).1.currentFrameIndex <
        (⟨[⟨1, [], none, none, none⟩, ⟨1, [], none, none, none⟩], false⟩ :
          AnimationData).frames.length) ∧
    (processFrame ⟨1, 0, some ⟨1, [], none, some 1, some ⟨[⟨0, 50⟩]⟩⟩, some "A",
        some ⟨[⟨1, [], none, none, none⟩, ⟨1, [], none, none, none⟩,
          ⟨1, [], none, none, none⟩], false⟩,
        true, []⟩ 1 0).1.currentFrameIndex <
      (⟨[⟨1, [], none, none, none⟩, ⟨1, [], none, none, none⟩,
          ⟨1, [], none, none, none⟩], false⟩ : AnimationData).frames.length ∧
    ((processFrame ⟨1, 1, some ⟨1, [], none, none, none⟩, some "W",
        some ⟨[⟨1, [], none, none, none⟩, ⟨1, [], none, none, none⟩], true⟩,
        true, []⟩ 1 0).1.currentFrameIndex = 2 ∧
      (processFrame ⟨1, 1, some ⟨1, [], none, none, none⟩, some "W",
        some ⟨[⟨1, [], none, none, none⟩, ⟨1, [], none, none, none⟩], true⟩,
        true, []⟩ 1 0).1.currentFrame = some ⟨1, [], none, none, none⟩) :=
  ⟨C8_index_validity.1 _
      ⟨[⟨1, [], none, none, none⟩, ⟨1, [], none, none, none⟩], false⟩ 1 0
      rfl rfl rfl (by decide),
   C8_index_validity.2.1 _
      ⟨[⟨1, [], none, none, none⟩, ⟨1, [], none, none, none⟩,
        ⟨1, [], none, none, none⟩], false⟩
      ⟨1, [], none, some 1, some ⟨[⟨0, 50⟩]⟩⟩ 1 0
      rfl rfl rfl (by decide) (by decide) (by decide),
   C8_index_validity.2.2 _
      ⟨[⟨1, [], none, none, none⟩, ⟨1, [], none, none, none⟩], true⟩
      ⟨1, [], none, none, none⟩ 1 0 rfl rfl rfl rfl rfl rfl (by decide)⟩

end AnimationSvc

namespace Component

open AnimationSvc

/-- Slice of `ClippyAgentComponent` owning the idle loop: the
`idleLoopToken`, the `isHidden` flag, and the animation service state. -/
structure CompState where
  idleLoopToken : Nat
  isHidden : Bool
  anim : AnimState
deriving Repr

/-- `cancelIdleLoop()`: increment the token (invalidating every
already-scheduled idle-loop continuation) and drop the subscription. -/
def cancelIdleLoop (s : CompState) : CompState :=
  { s with idleLoopToken := s.idleLoopToken + 1 }

/-- Explicit actions by their effect on the animation service: `play`-like
actions call `playAnimation` inside `execute()`; speech / delay actions
drive only the balloon or a timer and never touch the animation service. -/
inductive ActionKind where
  | playAnim (d : AgentData) (name : String)
  | speech
deriving Repr

/-- Animation-relevant effect of an action's `execute()`. -/
def runAction (a : ActionKind) (st : AnimState) : AnimState :=
  match a with
  | .playAnim d name => (playAnimation st d name).1
  | .speech => st

/-- `enqueueAction` with the queue idle: `cancelIdleLoop()` first, then
`ActionQueueService.enqueue`, whose pipeline subscribes the action's
`execute()` synchronously because nothing is pending. -/
def enqueueActionIdle (s : CompState) (a : ActionKind) : CompState :=
  let s1 := cancelIdleLoop s
  { s1 with anim := runAction a s1.anim }

/-- `hide(true)`: cancel the idle loop first, mark hidden, request the
current animation's exit. -/
def hideImmediate (s : CompState) : CompState :=
  let s1 := cancelIdleLoop s
  { s1 with isHidden := true, anim := exitAnimation s1.anim }

/-- `dispose()`: cancel the idle loop first; `AnimationService.dispose()`
then stops and clears the preloaded sounds (it leaves the epoch and the
session fields untouched). -/
def dispose (s : CompState) : CompState :=
  let s1 := cancelIdleLoop s
  { s1 with anim := { s1.anim with sounds := [] } }

/-- One idle-loop continuation (`playNext` in `startIdleLoop`): bail out
when hidden or when the captured token is stale; otherwise play the
idle-named animation picked by the random index.  The boolean reports
whether an idle animation was started. -/
def playNext (s : CompState) (captured : Nat) (d : AgentData) (pick : Nat) :
    CompState × Bool :=
  if s.isHidden || captured != s.idleLoopToken then (s, false)
  else
    match ((getAnimations d).filter (fun n => n.startsWith "Idle"))[pick]? with
    | none => (s, false)
    | some name => ({ s with anim := (playAnimation s.anim d name).1 }, true)

end Component

namespace Component

open AnimationSvc

/-- C6 (amended): enqueueing an explicit action, `hide()`, and `dispose()`
all increment the idle-loop token as their first step, every already
scheduled idle-loop continuation (`playNext`, guarded by token and hidden
flag) then does nothing, and a previously captured token can never match
again.  The in-flight idle animation's pending frame timer, however, is
guarded by the animation epoch, not by the idle token: it is silenced when
the enqueued action itself starts an animation (bumping the epoch); an
action that never drives the animation service leaves it running (see the
counterexample). -/
theorem C6_idle_token :
    (∀ (s : CompState) (a : ActionKind),
        (enqueueActionIdle s a).idleLoopToken = s.idleLoopToken + 1) ∧
    (∀ s : CompState, (hideImmediate s).idleLoopToken = s.idleLoopToken + 1 ∧
        (hideImmediate s).isHidden = true) ∧
    (∀ s : CompState, (dispose s).idleLoopToken = s.idleLoopToken + 1) ∧
    (∀ (s : CompState) (captured : Nat) (d : AgentData) (pick : Nat),
        captured ≠ s.idleLoopToken ∨ s.isHidden = true →
        playNext s captured d pick = (s, false)) ∧
    (∀ (s : CompState) (a : ActionKind) (captured : Nat) (d : AgentData) (pick : Nat),
        captured ≤ s.idleLoopToken →
        playNext (enqueueActionIdle s a) captured d pick = (enqueueActionIdle s a, false)) ∧
    (∀ (s : CompState) (d : AgentData) (name : String) (a : AnimationData)
        (k : Nat) (r : ℚ),
        lookupAnim d name = some a → k ≤ s.anim.animationId →
        processFrame (enqueueActionIdle s (.playAnim d name)).anim k r =
          ((enqueueActionIdle s (.playAnim d name)).anim, [.complete], none)) := by
  have hguard : ∀ (s : CompState) (captured : Nat) (d : AgentData) (pick : Nat),
      captured ≠ s.idleLoopToken ∨ s.isHidden = true →
      playNext s captured d pick = (s, false) := by
    intro s captured d pick h
    have hc : (s.isHidden || captured != s.idleLoopToken) = true := by
      rcases h with h | h
      · simp [h]
      · simp [h]
    simp [playNext, hc]
  refine ⟨fun s a => rfl, fun s => ⟨rfl, rfl⟩, fun s => rfl, hguard, ?_, ?_⟩
  · intro s a captured d pick hle
    exact hguard _ captured d pick (Or.inl (by
      show captured ≠ s.idleLoopToken + 1
      omega))
  · intro s d name a k r hlook hle
    apply processFrame_stale
    show (playAnimation s.anim d name).1.animationId ≠ k
    have : (playAnimation s.anim d name).1.animationId = s.anim.animationId + 1 := by
      simp [playAnimation, hlook]
    rw [this]
    omega

/-- C6 as stated fails on the code: with an idle animation in flight and
its frame timer pending (captured epoch 1), enqueueing a speech action
increments the idle token to 8, yet the pending timer — which checks only
the animation epoch, untouched by the speech action — still renders the
next idle-animation frame. -/
theorem C6_counterexample :
    (let dIdle : AnimationData :=
      ⟨[⟨1, [(1, 2)], none, none, none⟩, ⟨1, [(5, 6)], none, none, none⟩,
        ⟨1, [(7, 8)], none, none, none⟩], false⟩
     let cs : CompState :=
      ⟨7, false, ⟨1, 0, some ⟨1, [(1, 2)], none, none, none⟩, some "IdleOne",
        some dIdle, false, []⟩⟩
     let cs2 := enqueueActionIdle cs .speech
     let t := processFrame cs2.anim 1 0
     cs2.idleLoopToken = 8 ∧
     AnimEffect.render [(5, 6)] ∈ t.2.1 ∧
     t.1.currentFrameIndex = 1) := by decide

theorem C6_idle_token_witness :
    (enqueueActionIdle ⟨7, false, ⟨1, 0, none, none, none, false, []⟩⟩
        .speech).idleLoopToken = 8 ∧
    ((hideImmediate ⟨7, false, ⟨1, 0, none, none, none, false, []⟩⟩).idleLoopToken = 8 ∧
      (hideImmediate ⟨7, false, ⟨1, 0, none, none, none, false, []⟩⟩).isHidden = true) ∧
    (dispose ⟨7, false, ⟨1, 0, none, none, none, false, []⟩⟩).idleLoopToken = 8 ∧
    playNext ⟨7, false, ⟨1, 0, none, none, none, false, []⟩⟩ 5 ⟨[], []⟩ 0 =
      (⟨7, false, ⟨1, 0, none, none, none, false, []⟩⟩, false) ∧
    playNext (enqueueActionIdle ⟨7, false, ⟨1, 0, none, none, none, false, []⟩⟩ .speech)
        7 ⟨[], []⟩ 0 =
      (enqueueActionIdle ⟨7, false, ⟨1, 0, none, none, none, false, []⟩⟩ .speech, false) ∧
    processFrame (enqueueActionIdle ⟨7, false, ⟨1, 0, none, none, none, false, []⟩⟩
        (.playAnim ⟨[("A", ⟨[⟨1, [], none, none, none⟩], false⟩)], []⟩ "A")).anim 1 0 =
      ((enqueueActionIdle ⟨7, false, ⟨1, 0, none, none, none, false, []⟩⟩
        (.playAnim ⟨[("A", ⟨[⟨1, [], none, none, none⟩], false⟩)], []⟩ "A")).anim,
        [.complete], none) :=
  ⟨C6_idle_token.1 _ .speech,
   C6_idle_token.2.1 _,
   C6_idle_token.2.2.1 _,
   C6_idle_token.2.2.2.1 _ 5 ⟨[], []⟩ 0 (Or.inl (by decide)),
   C6_idle_token.2.2.2.2.1 _ .speech 7 ⟨[], []⟩ 0 (by decide),
   C6_idle_token.2.2.2.2.2 _ _ "A" ⟨[⟨1, [], none, none, none⟩], false⟩ 1 0
     (by decide) (by decide)⟩

end Component
